import Mathlib

/-!
Verification of the PositionalZod positional codec.

The TypeScript source is embedded shallowly: JavaScript strings are modelled
as `List Char` (one element per character), JavaScript numbers produced by
`Number(...)` as an inductive `JsNum` with an exact rational payload for
finite values (float rounding is idealised away; no claim depends on it),
and JavaScript runtime values flowing through the decoder as `JsValue`.
Character-for-character comparisons of the source (`str[i] === escapeChar`,
where `escapeChar` is a string) are modelled as `[c] = esc` with
`esc : List Char`, so multi-character and empty delimiter/escape strings
behave exactly as in the source.
-/

namespace PositionalZod

/-- JavaScript `===` comparison of a one-character string with a string. -/
def charEqStr (c : Char) (s : List Char) : Prop := [c] = s

instance (c : Char) (s : List Char) : Decidable (charEqStr c s) := by
  unfold charEqStr; infer_instance

/-!
## Escape codec (src/utils/escape.ts, embedded from src/unnamed/part_000)
-/

/-- Embedding of `escape(str, delimiter, escapeChar)`: insert the escape
string before every character that equals the delimiter or the escape
character (JavaScript compares the single character against the whole
delimiter/escape string, so a multi-character delimiter never matches). -/
def escape (str delimiter escapeChar : List Char) : List Char :=
  match str with
  | [] => []
  | c :: rest =>
    (if charEqStr c delimiter ∨ charEqStr c escapeChar
     then escapeChar ++ [c] else [c]) ++ escape rest delimiter escapeChar

/-- Embedding of `unescape(str, delimiter, escapeChar)`: an escape character
followed by the delimiter or by the escape character is collapsed to that
following character; everything else is copied. -/
def unescape (str delimiter escapeChar : List Char) : List Char :=
  match str with
  | [] => []
  | [c] => [c]
  | c :: d :: rest =>
    if charEqStr c escapeChar ∧ (charEqStr d delimiter ∨ charEqStr d escapeChar)
    then d :: unescape rest delimiter escapeChar
    else c :: unescape (d :: rest) delimiter escapeChar

/-- Checks whether `pat` occurs at the start of `s`
(the source's `str.substring(i, i + delimiter.length) === delimiter`). -/
def listStartsWith (pat s : List Char) : Bool :=
  match pat, s with
  | [], _ => true
  | _ :: _, [] => false
  | p :: ps, c :: cs => p = c && listStartsWith ps cs

/-- Extends the segment currently being scanned (the head of the segment
list) with one character, mirroring `current += char` of the source. -/
def glue (c : Char) : List (List Char) → List (List Char)
  | [] => [[c]]
  | s :: ss => (c :: s) :: ss

/-- Fuel-indexed scanner of `splitWithEscape`.  The loop of the source
consumes at least one character per iteration, so `str.length` steps always
suffice and the zero-fuel branch is unreachable from `splitWithEscape`.
A subtlety of the source: with an empty delimiter the substring check
`str.substring(i, i) === ""` always succeeds while `i` never advances, so
the original loops forever; the model lets an empty delimiter never match,
and no theorem below concerns that configuration. -/
def splitFuel (delimiter escapeChar : List Char) : Nat → List Char → List (List Char)
  | _, [] => [[]]
  | 0, s => [s]
  | n + 1, [c] =>
    if delimiter ≠ [] ∧ listStartsWith delimiter [c]
    then [] :: splitFuel delimiter escapeChar n ([c].drop delimiter.length)
    else glue c (splitFuel delimiter escapeChar n [])
  | n + 1, c :: d :: rest2 =>
    if charEqStr c escapeChar ∧ (charEqStr d delimiter ∨ charEqStr d escapeChar)
    then glue d (splitFuel delimiter escapeChar n rest2)
    else if delimiter ≠ [] ∧ listStartsWith delimiter (c :: d :: rest2)
    then [] :: splitFuel delimiter escapeChar n ((c :: d :: rest2).drop delimiter.length)
    else glue c (splitFuel delimiter escapeChar n (d :: rest2))

/-- Embedding of `splitWithEscape(str, delimiter, escapeChar)`. -/
def splitWithEscape (str delimiter escapeChar : List Char) : List (List Char) :=
  splitFuel delimiter escapeChar str.length str

/-- `segments.map(s => escape(s)).join(delimiter)`: the composition the
round-trip law of the spec talks about (escape each segment, then join
with the delimiter). -/
def joinEscaped (segments : List (List Char)) (delimiter escapeChar : List Char) : List Char :=
  match segments with
  | [] => []
  | [s] => escape s delimiter escapeChar
  | s :: rest => escape s delimiter escapeChar ++ delimiter ++ joinEscaped rest delimiter escapeChar

/-- Prepends `s` onto the first segment of a segment list (used to state how
`splitWithEscape` treats a scanned-over block of text). -/
def consSeg (s : List Char) : List (List Char) → List (List Char)
  | [] => [s]
  | t :: ts => (s ++ t) :: ts

/-!
## JavaScript string and number primitives

Models of the host-language primitives the coercion engine calls:
`String.prototype.trim`, `String.prototype.toLowerCase` (restricted to
ASCII, which covers every token the source compares against),
`String.prototype.split`, and `Number(...)` on strings (signed decimal
with fraction and exponent, `Infinity`, and `0x`/`0o`/`0b` radix literals;
anything else is NaN; the finite result is kept as an exact rational).
-/

/-- The characters `String.prototype.trim` removes (WhiteSpace and
LineTerminator code points). -/
def isJsSpace (c : Char) : Bool :=
  c == ' ' || c == '\t' || c == '\n' || c == '\r' ||
  c.toNat == 11 || c.toNat == 12 || c.toNat == 0xA0 || c.toNat == 0xFEFF ||
  c.toNat == 0x1680 || (0x2000 ≤ c.toNat && c.toNat ≤ 0x200A) ||
  c.toNat == 0x2028 || c.toNat == 0x2029 || c.toNat == 0x202F ||
  c.toNat == 0x205F || c.toNat == 0x3000

/-- Model of `value.trim()`. -/
def jsTrim (s : List Char) : List Char :=
  ((s.dropWhile isJsSpace).reverse.dropWhile isJsSpace).reverse

/-- ASCII lowercasing of one character (`String.prototype.toLowerCase`
restricted to ASCII; every token the source compares against is ASCII). -/
def jsToLower (c : Char) : Char :=
  if 'A' ≤ c ∧ c ≤ 'Z' then Char.ofNat (c.toNat + 32) else c

/-- Model of `value.toLowerCase()`. -/
def jsLower (s : List Char) : List Char := s.map jsToLower

/-- Fuel-indexed scanner of `String.prototype.split` with a nonempty
string separator (leftmost match, no escapes). -/
def jsSplitFuel (sep : List Char) : Nat → List Char → List (List Char)
  | _, [] => [[]]
  | 0, s => [s]
  | n + 1, c :: rest =>
    if listStartsWith sep (c :: rest)
    then [] :: jsSplitFuel sep n ((c :: rest).drop sep.length)
    else glue c (jsSplitFuel sep n rest)

/-- Model of `s.split(sep)`: an empty separator splits into single
characters, otherwise the string is cut at each leftmost occurrence of the
separator. -/
def jsSplit (s sep : List Char) : List (List Char) :=
  if sep = [] then s.map (fun c => [c]) else jsSplitFuel sep s.length s

/-- A JavaScript number as far as the codec observes it: the NaN and
signed-infinity sentinels and an exact rational for the finite values. -/
inductive JsNum where
  | nan
  | inf
  | negInf
  | finite (q : ℚ)
deriving DecidableEq, Repr

/-- Decimal digit test. -/
def isDigitCh (c : Char) : Bool := '0' ≤ c && c ≤ '9'

/-- Value of a list of decimal digits. -/
def digitsVal (l : List Char) : Nat :=
  l.foldl (fun a c => a * 10 + (c.toNat - '0'.toNat)) 0

/-- Parses the optional exponent suffix of a decimal literal; `some e`
when the remaining input is empty or a well-formed `e`/`E` exponent. -/
def parseExpSuffix : List Char → Option Int
  | [] => some 0
  | c :: r =>
    if c = 'e' ∨ c = 'E' then
      match r with
      | '+' :: d => if d ≠ [] ∧ d.all isDigitCh then some (digitsVal d) else none
      | '-' :: d => if d ≠ [] ∧ d.all isDigitCh then some (-(digitsVal d : Int)) else none
      | d => if d ≠ [] ∧ d.all isDigitCh then some (digitsVal d) else none
    else none

/-- Parses an unsigned decimal literal (`digits`, `digits.digits`,
`.digits`, `digits.`, with an optional exponent) to its exact value. -/
def parseUnsignedDec (t : List Char) : Option ℚ :=
  let ip := t.takeWhile isDigitCh
  let r1 := t.drop ip.length
  match r1 with
  | '.' :: r2 =>
    let fp := r2.takeWhile isDigitCh
    let r3 := r2.drop fp.length
    if ip = [] ∧ fp = [] then none
    else match parseExpSuffix r3 with
      | some e =>
        some (((digitsVal ip : ℚ) + (digitsVal fp : ℚ) / (10 : ℚ) ^ fp.length) *
          (10 : ℚ) ^ e)
      | none => none
  | _ =>
    if ip = [] then none
    else match parseExpSuffix r1 with
      | some e => some ((digitsVal ip : ℚ) * (10 : ℚ) ^ e)
      | none => none

/-- Value of a digit in radix 2, 8 or 16, if legal. -/
def radixVal (base : Nat) (c : Char) : Option Nat :=
  let v :=
    if '0' ≤ c ∧ c ≤ '9' then some (c.toNat - '0'.toNat)
    else if 'a' ≤ c ∧ c ≤ 'f' then some (c.toNat - 'a'.toNat + 10)
    else if 'A' ≤ c ∧ c ≤ 'F' then some (c.toNat - 'A'.toNat + 10)
    else none
  match v with
  | some n => if n < base then some n else none
  | none => none

/-- Parses the digit part of a `0x`/`0o`/`0b` literal. -/
def parseRadixDigits (base : Nat) (l : List Char) : Option Nat :=
  if l = [] then none
  else l.foldl (fun acc c =>
    match acc, radixVal base c with
    | some a, some v => some (a * base + v)
    | _, _ => none) (some 0)

/-- Model of ECMAScript `Number(string)`: trim, empty means zero, an
optional sign followed by `Infinity` or a decimal literal, or an unsigned
radix literal; everything else is NaN. -/
def jsStrToNum (s : List Char) : JsNum :=
  let t := jsTrim s
  match t with
  | [] => .finite 0
  | '+' :: r =>
    if r = "Infinity".data then .inf
    else match parseUnsignedDec r with
      | some q => .finite q
      | none => .nan
  | '-' :: r =>
    if r = "Infinity".data then .negInf
    else match parseUnsignedDec r with
      | some q => .finite (-q)
      | none => .nan
  | '0' :: x :: r =>
    if x = 'x' ∨ x = 'X' then
      match parseRadixDigits 16 r with
      | some n => .finite n
      | none => .nan
    else if x = 'o' ∨ x = 'O' then
      match parseRadixDigits 8 r with
      | some n => .finite n
      | none => .nan
    else if x = 'b' ∨ x = 'B' then
      match parseRadixDigits 2 r with
      | some n => .finite n
      | none => .nan
    else match parseUnsignedDec t with
      | some q => .finite q
      | none => .nan
  | _ =>
    if t = "Infinity".data then .inf
    else match parseUnsignedDec t with
      | some q => .finite q
      | none => .nan

/-!
## Type coercion engine (src/utils/coercion.ts)
-/

/-- The `FieldType` union of src/types.ts. -/
inductive FieldType where
  | string
  | number
  | boolean
  | date
  | enum
  | literal
  | array
  | json
deriving DecidableEq, Repr

/-- A JavaScript runtime value as the decoder produces it.  A `Date` is
represented by the string it was constructed from (`new Date(s)`, whose
calendar semantics no claim observes). -/
inductive JsValue where
  | undef
  | null
  | boolean (b : Bool)
  | number (n : JsNum)
  | str (s : List Char)
  | date (constructedFrom : List Char)
  | arr (items : List JsValue)
  | obj (fields : List (List Char × JsValue))

/-- CoercionConfig of src/utils/coercion.ts. -/
structure CoercionConfig where
  subDelimiter : List Char

/-- Embedding of `coerceNumber`: case-insensitive `nan` and `infinity`
after trimming, exact-case `+Infinity` and `-Infinity`, then the
`Number(trimmed)` fallback. -/
def coerceNumber (value : List Char) : JsNum :=
  let trimmed := jsTrim value
  if jsLower trimmed = "nan".data then .nan
  else if jsLower trimmed = "infinity".data ∨ trimmed = "+Infinity".data then .inf
  else if trimmed = "-Infinity".data then .negInf
  else jsStrToNum trimmed

/-- Embedding of `coerceBoolean`: trimmed lowercased token matched against
the true and false sets, otherwise `Boolean(trimmed)`, the truthiness of
the trimmed string (true exactly when it is nonempty). -/
def coerceBoolean (value : List Char) : Bool :=
  let trimmed := jsLower (jsTrim value)
  if trimmed = "true".data ∨ trimmed = "1".data ∨ trimmed = "yes".data then true
  else if trimmed = "false".data ∨ trimmed = "0".data ∨ trimmed = "no".data then false
  else !trimmed.isEmpty

/-- Embedding of `coerceDate`: the argument handed to `new Date(...)`. -/
def coerceDate (value : List Char) : List Char := jsTrim value

/-- Embedding of `coerceArray`: split by the sub-delimiter (a plain split,
not escape-aware) and trim each item. -/
def coerceArray (value subDelimiter : List Char) : List (List Char) :=
  (jsSplit value subDelimiter).map jsTrim

/-- Embedding of `coerceJson`.  `JSON.parse` is a host primitive and is
passed in abstractly; on its failure the trimmed raw string is returned
unchanged, deferring the error to validation. -/
def coerceJson (jsonParse : List Char → Option JsValue) (value : List Char) : JsValue :=
  match jsonParse (jsTrim value) with
  | some v => v
  | none => .str (jsTrim value)

/-- Embedding of `coerceValue`: the empty string is the universal absence
sentinel; otherwise dispatch on the field type. -/
def coerceValue (jsonParse : List Char → Option JsValue) (value : List Char)
    (type : FieldType) (config : CoercionConfig) : JsValue :=
  if value = [] then .undef
  else match type with
    | .string => .str value
    | .number => .number (coerceNumber value)
    | .boolean => .boolean (coerceBoolean value)
    | .date => .date (coerceDate value)
    | .array => .arr ((coerceArray value config.subDelimiter).map .str)
    | .json => coerceJson jsonParse value
    | .enum => .str value
    | .literal => .str value

/-- Embedding of `coerceArrayItems`: coerce every item of an
already-split array field to the declared item type. -/
def coerceArrayItems (jsonParse : List Char → Option JsValue)
    (items : List (List Char)) (itemType : FieldType)
    (config : CoercionConfig) : List JsValue :=
  items.map (fun item => coerceValue jsonParse item itemType config)

/-!
## Row parser and decoder (src/parser.ts, embedded from src/unnamed/part_000)
-/

/-- A decoded record: a JavaScript object as an ordered association list. -/
abbrev JsRecord := List (List Char × JsValue)

/-- PositionInfo of src/types.ts. -/
structure PositionInfo where
  path : List Char
  position : Nat
  type : FieldType
  optional : Bool
  nullable : Bool
  enumValues : Option (List (List Char)) := none
  literalValue : Option JsValue := none
  arrayItemType : Option FieldType := none

/-- ParserConfig of src/types.ts. -/
structure ParserConfig where
  delimiter : List Char
  subDelimiter : List Char
  escapeChar : List Char

/-- The data carried by a thrown ParseError (src/errors.ts); the
human-readable message string is not modelled. -/
structure ParseErr where
  rawResponse : List Char
  rowIndex : Option Nat
  expectedColumns : Nat
  actualColumns : Nat
deriving DecidableEq, Repr

/-- JavaScript object property write: an existing key keeps its place and
receives the new value, a fresh key is appended at the end. -/
def setKey (fields : JsRecord) (key : List Char) (v : JsValue) : JsRecord :=
  match fields with
  | [] => [(key, v)]
  | (k, w) :: rest =>
    if k = key then (key, v) :: rest else (k, w) :: setKey rest key v

/-- JavaScript object property read. -/
def getKey (fields : JsRecord) (key : List Char) : Option JsValue :=
  match fields with
  | [] => none
  | (k, w) :: rest => if k = key then some w else getKey rest key

/-- Embedding of `setNestedValue` on an already-split path: descend into
existing object values, replacing anything else (missing, non-object or
null) by a fresh empty object, and write the final part.  (At an
intermediate part the source would also descend into a JavaScript array,
arrays being `typeof "object"`; the decoder never stores an array at an
intermediate path, so the model replaces non-object values uniformly.) -/
def setParts (obj : JsRecord) (parts : List (List Char)) (v : JsValue) : JsRecord :=
  match parts with
  | [] => obj
  | [last] => setKey obj last v
  | part :: rest =>
    let sub := match getKey obj part with
      | some (.obj fields) => fields
      | _ => []
    setKey obj part (.obj (setParts sub rest v))

/-- Embedding of `setNestedValue(obj, path, value)`: split the dot path
and walk it. -/
def setNestedValue (obj : JsRecord) (path : List Char) (v : JsValue) : JsRecord :=
  setParts obj (jsSplit path ".".data) v

/-- The unchecked `value as string[]` cast the source applies to an
already-coerced array value (always a string in reachable states). -/
def jsValueAsString : JsValue → List Char
  | .str s => s
  | _ => []

/-- The pre-substitution coercion pipeline of the loop body of `parseRow`:
type coercion of the raw segment followed by the per-item re-coercion of
array values.  This is the "normal type coercion" a segment goes through
when no `null` substitution applies. -/
def coerceEntryValue (jsonParse : List Char → Option JsValue)
    (config : ParserConfig) (position : PositionInfo)
    (rawValue : List Char) : JsValue :=
  match position.type,
      coerceValue jsonParse rawValue position.type ⟨config.subDelimiter⟩,
      position.arrayItemType with
  | .array, .arr items, some itemType =>
    .arr (coerceArrayItems jsonParse (items.map jsValueAsString) itemType
      ⟨config.subDelimiter⟩)
  | _, v, _ => v

/-- The full loop body of `parseRow` for one Position Entry: coerce the
raw segment to the declared type, re-coerce array items, then substitute
the null sentinel when the entry is nullable and the raw segment is
case-insensitively the token `null` (the raw segment is lowercased but
not trimmed, exactly as in the source). -/
def coercePosition (jsonParse : List Char → Option JsValue)
    (config : ParserConfig) (position : PositionInfo)
    (rawValue : List Char) : JsValue :=
  let value := coerceValue jsonParse rawValue position.type ⟨config.subDelimiter⟩
  let value :=
    match position.type, value, position.arrayItemType with
    | .array, .arr items, some itemType =>
      .arr (coerceArrayItems jsonParse (items.map jsValueAsString) itemType
        ⟨config.subDelimiter⟩)
    | _, v, _ => v
  if position.nullable ∧ jsLower rawValue = "null".data then .null else value

/-- Embedding of `parseRow(row, positions, config, rowIndex)`: split the
row with the escape codec, check the column count, then compute each
entry's value with `coercePosition` and write it at its dot path.
The source's non-null assertion `values[position.position]!` is modelled
by a default that is never reached for well-formed position lists. -/
def parseRow (jsonParse : List Char → Option JsValue) (row : List Char)
    (positions : List PositionInfo) (config : ParserConfig) (rowIndex : Nat) :
    Except ParseErr JsRecord :=
  let values := splitWithEscape row config.delimiter config.escapeChar
  if values.length ≠ positions.length then
    .error ⟨row, some rowIndex, positions.length, values.length⟩
  else
    .ok (positions.foldl (fun result position =>
      let rawValue := values.getD position.position []
      setNestedValue result position.path
        (coercePosition jsonParse config position rawValue)) [])

/-- Embedding of `cleanAndSplitRows`: trim the whole output, split into
lines, trim each line and drop the empty ones. -/
def cleanAndSplitRows (rawOutput : List Char) : List (List Char) :=
  ((jsSplit (jsTrim rawOutput) "\n".data).map jsTrim).filter
    (fun line => decide (0 < line.length))

/-- OutputMode of src/types.ts (`"object"` or `"array"`). -/
inductive OutputMode where
  | object
  | array
deriving DecidableEq

/-- The data carried by a thrown ValidationError (src/errors.ts): the
validator's issue list, the pre-validation record and the row index. -/
structure ValidationErrData where
  zodError : List (List Char)
  parsedData : JsRecord
  rowIndex : Nat

/-- An error escaping `parsePositionalOutput`. -/
inductive PError where
  | parse (e : ParseErr)
  | validation (e : ValidationErrData)

/-- The decoded payload: one record in object mode, many in array mode. -/
inductive ParsedData where
  | one (record : JsRecord)
  | many (records : List JsRecord)

/-- ParseResult of src/types.ts; `warnings` is undefined when empty. -/
structure DecodeResult where
  data : ParsedData
  warnings : Option (List (List Char))

/-- The warning recorded in object mode when several rows arrive. -/
def singleModeWarning (n : Nat) : List Char :=
  ("Expected single object but got " ++ Nat.repr n ++ " rows. Using first row.").data

/-- Embedding of `parsePositionalOutput(rawOutput, positions, schema,
config, mode)`.  The Zod validator is the external capability
`validate(record) -> Ok(typed) | Err(issues)` and is passed in abstractly
(`validateWithZod` wraps its failure into a ValidationError with the row
index).  The source's re-wrapping of non-ParseError exceptions from
`parseRow` has no counterpart because the modelled `parseRow` only
produces ParseErr values. -/
def parsePositionalOutput (jsonParse : List Char → Option JsValue)
    (validate : JsRecord → Except (List (List Char)) JsRecord)
    (rawOutput : List Char) (positions : List PositionInfo)
    (config : ParserConfig) (mode : OutputMode) :
    Except PError DecodeResult :=
  let rows := cleanAndSplitRows rawOutput
  if rows.length = 0 then
    .error (.parse ⟨rawOutput, none, positions.length, 0⟩)
  else
    match rows.enum.mapM (fun ir => parseRow jsonParse ir.2 positions config ir.1) with
    | .error e => .error (.parse e)
    | .ok parsedRows =>
      match mode with
      | .object =>
        let warnings :=
          if 1 < parsedRows.length then [singleModeWarning parsedRows.length] else []
        let data := parsedRows.headD []
        match validate data with
        | .error issues => .error (.validation ⟨issues, data, 0⟩)
        | .ok validated =>
          .ok ⟨.one validated, if warnings.length ≠ 0 then some warnings else none⟩
      | .array =>
        match parsedRows.enum.mapM (fun ir =>
            match validate ir.2 with
            | .error issues => Except.error (PError.validation ⟨issues, ir.2, ir.1⟩)
            | .ok v => Except.ok v) with
        | .error e => .error e
        | .ok validatedRows => .ok ⟨.many validatedRows, none⟩

/-!
## Schema analyzer (src/schema-analyzer.ts)
-/

mutual
/-- A normalized Zod schema node as `analyzeSchema` observes it through the
v3/v4 duck-typing helpers (`getTypeName`, `getInnerType`, `getShape`,
`getEnumValues`, `getLiteralValue`): one constructor for each `typeName`
the switch distinguishes, wrappers carrying their inner node, objects
carrying their ordered shape.  `zeffectsOpaque` is a ZodEffects whose
inner type cannot be found (`getInnerType` returns null); `zother` is any
unrecognized type name (the fallback of `getTypeName` and the default
branch of the switch). -/
inductive ZodType where
  | zstring
  | znumber
  | zboolean
  | zdate
  | zenum (values : List (List Char))
  | znativeEnum (values : List (List Char))
  | zliteral (value : JsValue)
  | zoptional (inner : ZodType)
  | znullable (inner : ZodType)
  | zdefault (inner : ZodType)
  | zcatch (inner : ZodType)
  | zbranded (inner : ZodType)
  | zpipeline (inner : ZodType)
  | zreadonly (inner : ZodType)
  | zarray (element : ZodType)
  | zobject (shape : ZodShape)
  | zunion
  | zdiscriminatedUnion
  | zeffects (inner : ZodType)
  | zeffectsOpaque
  | zany
  | zunknown
  | zrecord
  | zmap
  | zset
  | zfunction
  | zlazy
  | zpromise
  | zother (typeName : List Char)

/-- An ordered object shape: field name and node pairs in declaration
order (`Object.entries(shape)`). -/
inductive ZodShape where
  | nil
  | cons (name : List Char) (field : ZodType) (rest : ZodShape)
end

/-- The data carried by a thrown SchemaError (src/errors.ts). -/
structure SchemaErr where
  schemaPath : List Char
  typeName : Option (List Char)

/-- The `typeName` string `getTypeName` reports for a node. -/
def typeNameOf : ZodType → List Char
  | .zstring => "ZodString".data
  | .znumber => "ZodNumber".data
  | .zboolean => "ZodBoolean".data
  | .zdate => "ZodDate".data
  | .zenum _ => "ZodEnum".data
  | .znativeEnum _ => "ZodNativeEnum".data
  | .zliteral _ => "ZodLiteral".data
  | .zoptional _ => "ZodOptional".data
  | .znullable _ => "ZodNullable".data
  | .zdefault _ => "ZodDefault".data
  | .zcatch _ => "ZodCatch".data
  | .zbranded _ => "ZodBranded".data
  | .zpipeline _ => "ZodPipeline".data
  | .zreadonly _ => "ZodReadonly".data
  | .zarray _ => "ZodArray".data
  | .zobject _ => "ZodObject".data
  | .zunion => "ZodUnion".data
  | .zdiscriminatedUnion => "ZodDiscriminatedUnion".data
  | .zeffects _ => "ZodEffects".data
  | .zeffectsOpaque => "ZodEffects".data
  | .zany => "ZodAny".data
  | .zunknown => "ZodUnknown".data
  | .zrecord => "ZodRecord".data
  | .zmap => "ZodMap".data
  | .zset => "ZodSet".data
  | .zfunction => "ZodFunction".data
  | .zlazy => "ZodLazy".data
  | .zpromise => "ZodPromise".data
  | .zother typeName => typeName

/-- The `getTypeName(inner) === "ZodObject"` test of the ZodArray case. -/
def isZodObject : ZodType → Bool
  | .zobject _ => true
  | _ => false

/-- Embedding of `getFieldType(schema)` (array item types). -/
def getFieldType : ZodType → FieldType
  | .zstring => .string
  | .znumber => .number
  | .zboolean => .boolean
  | .zdate => .date
  | .zenum _ => .enum
  | .znativeEnum _ => .enum
  | .zliteral _ => .literal
  | .zobject _ => .json
  | _ => .string

/-- The `getShape` helper: the shape of an object node, null otherwise. -/
def getShapeOf : ZodType → Option ZodShape
  | .zobject shape => some shape
  | _ => none

mutual
/-- The recursive `analyze(fieldSchema, path, optional, nullable)` closure
of `analyzeSchema`, with the mutated `positions` array and
`currentPosition` counter threaded explicitly: on success it returns the
entries this node contributes and the next free position index; an
unsupported node kind aborts the whole analysis with a SchemaError naming
the path and type. -/
def analyze (s : ZodType) (path : List Char) (optional nullable : Bool)
    (pos : Nat) : Except SchemaErr (List PositionInfo × Nat) :=
  match s with
  | .zstring =>
    .ok ([⟨path, pos, .string, optional, nullable, none, none, none⟩], pos + 1)
  | .znumber =>
    .ok ([⟨path, pos, .number, optional, nullable, none, none, none⟩], pos + 1)
  | .zboolean =>
    .ok ([⟨path, pos, .boolean, optional, nullable, none, none, none⟩], pos + 1)
  | .zdate =>
    .ok ([⟨path, pos, .date, optional, nullable, none, none, none⟩], pos + 1)
  | .zenum values =>
    .ok ([⟨path, pos, .enum, optional, nullable, some values, none, none⟩], pos + 1)
  | .znativeEnum values =>
    .ok ([⟨path, pos, .enum, optional, nullable, some values, none, none⟩], pos + 1)
  | .zliteral value =>
    .ok ([⟨path, pos, .literal, optional, nullable, none, some value, none⟩], pos + 1)
  | .zoptional inner => analyze inner path true nullable pos
  | .znullable inner => analyze inner path optional true pos
  | .zdefault inner => analyze inner path optional nullable pos
  | .zcatch inner => analyze inner path optional nullable pos
  | .zbranded inner => analyze inner path optional nullable pos
  | .zpipeline inner => analyze inner path optional nullable pos
  | .zreadonly inner => analyze inner path optional nullable pos
  | .zarray element =>
    .ok ([⟨path, pos, if isZodObject element then .json else .array,
      optional, nullable, none, none,
      if isZodObject element then none else some (getFieldType element)⟩], pos + 1)
  | .zobject shape => analyzeShape shape path optional nullable pos
  | .zunion =>
    .ok ([⟨path, pos, .string, optional, nullable, none, none, none⟩], pos + 1)
  | .zdiscriminatedUnion =>
    .ok ([⟨path, pos, .string, optional, nullable, none, none, none⟩], pos + 1)
  | .zeffects inner => analyze inner path optional nullable pos
  | .zeffectsOpaque =>
    .ok ([⟨path, pos, .string, optional, nullable, none, none, none⟩], pos + 1)
  | .zany =>
    .ok ([⟨path, pos, .string, optional, nullable, none, none, none⟩], pos + 1)
  | .zunknown =>
    .ok ([⟨path, pos, .string, optional, nullable, none, none, none⟩], pos + 1)
  | .zrecord => .error ⟨path, some "ZodRecord".data⟩
  | .zmap => .error ⟨path, some "ZodMap".data⟩
  | .zset => .error ⟨path, some "ZodSet".data⟩
  | .zfunction => .error ⟨path, some "ZodFunction".data⟩
  | .zlazy => .error ⟨path, some "ZodLazy".data⟩
  | .zpromise => .error ⟨path, some "ZodPromise".data⟩
  | .zother _ =>
    .ok ([⟨path, pos, .string, optional, nullable, none, none, none⟩], pos + 1)

/-- The ZodObject field loop: analyze each field in declaration order with
the dot-extended path (`path ? path + "." + key : key`). -/
def analyzeShape (shape : ZodShape) (path : List Char) (optional nullable : Bool)
    (pos : Nat) : Except SchemaErr (List PositionInfo × Nat) :=
  match shape with
  | .nil => .ok ([], pos)
  | .cons name field rest =>
    let nestedPath := if path = [] then name else path ++ ".".data ++ name
    match analyze field nestedPath optional nullable pos with
    | .error e => .error e
    | .ok (l1, pos1) =>
      match analyzeShape rest path optional nullable pos1 with
      | .error e => .error e
      | .ok (l2, pos2) => .ok (l1 ++ l2, pos2)
end

/-- Embedding of `analyzeSchema(schema)`: require an object root
(SchemaError otherwise), then analyze each root field in order with the
field name as path and the flags cleared, starting at position 0. -/
def analyzeSchema (schema : ZodType) : Except SchemaErr (List PositionInfo) :=
  match getShapeOf schema with
  | none => .error ⟨[], some (typeNameOf schema)⟩
  | some shape =>
    match analyzeShape shape [] false false 0 with
    | .error e => .error e
    | .ok (l, _) => .ok l

/-!
## Codec orchestrator (PositionalZod.complete, embedded from src/unnamed/part_002)
-/

/-- The provider identifiers of src/types.ts. -/
inductive Provider where
  | openai
  | anthropic
  | google
deriving DecidableEq, Repr

/-- The error classes that can escape one completion attempt
(`completeWithProvider`): a ProviderError from the external producer, a
codec-internal SchemaError, ParseError or ValidationError, or any other
thrown value. -/
inductive OrchError where
  | provider (providerName : Provider) (statusCode : Option Nat)
  | schema (e : SchemaErr)
  | parse (e : ParseErr)
  | validation (e : ValidationErrData)
  | generic (message : List Char)

/-- The `error instanceof ProviderError` test of the fallback loop. -/
def OrchError.isProviderError : OrchError → Bool
  | .provider _ _ => true
  | _ => false

/-- Embedding of the provider loop of `PositionalZod.complete`: walk the
provider order, skipping unconfigured providers, returning the first
success; a ProviderError is remembered as `lastError` and the next
provider is tried; any other error is rethrown at once.  When the order
is exhausted, the last remembered error (or a generic "All providers
failed") is thrown.  `attempt p` abstracts `completeWithProvider(p,
options)`, the whole pipeline run against one provider, and `configured`
abstracts the `config.providers[p]` check. -/
def completeAttempts {R : Type} (attempt : Provider → Except OrchError R)
    (configured : Provider → Bool) :
    List Provider → Option OrchError → Except OrchError R
  | [], last => .error (last.getD (.generic "All providers failed".data))
  | p :: rest, last =>
    if configured p then
      match attempt p with
      | .ok r => .ok r
      | .error e =>
        if e.isProviderError then completeAttempts attempt configured rest (some e)
        else .error e
    else completeAttempts attempt configured rest last

/-- Embedding of `complete(options)`: the provider order is the requested
provider followed by the fallback list with the requested provider
filtered out. -/
def complete {R : Type} (attempt : Provider → Except OrchError R)
    (configured : Provider → Bool) (provider : Provider)
    (fallbackProviders : List Provider) : Except OrchError R :=
  completeAttempts attempt configured
    (provider :: fallbackProviders.filter (fun p => p != provider)) none

/-!
## Concrete instances used by the closed witness theorems
-/

/-- A `JSON.parse` instance that always fails (no claim exercises json
fields). -/
def jsonParseNone : List Char → Option JsValue := fun _ => none

/-- The default wire configuration (`|`, `;`, `\`). -/
def defaultParserConfig : ParserConfig := ⟨"|".data, ";".data, "\\".data⟩

/-- A validator that accepts every record unchanged. -/
def acceptAllValidator : JsRecord → Except (List (List Char)) JsRecord :=
  fun r => .ok r

/-- A single non-nullable string column named `name`. -/
def nameEntry : PositionInfo :=
  ⟨"name".data, 0, .string, false, false, none, none, none⟩

/-- A schema exercising nesting, optional and nullable wrappers, arrays
and enums (used by the C1 witness). -/
def demoSchema : ZodType :=
  .zobject (.cons "user".data
    (.zobject (.cons "name".data .zstring
      (.cons "email".data (.zoptional .zstring) .nil)))
    (.cons "age".data (.znullable .znumber)
    (.cons "tags".data (.zarray .zstring)
    (.cons "role".data (.zenum ["admin".data, "user".data]) .nil))))

/-- The Position List `analyzeSchema` produces for `demoSchema`. -/
def demoPositions : List PositionInfo :=
  [⟨"user.name".data, 0, .string, false, false, none, none, none⟩,
   ⟨"user.email".data, 1, .string, true, false, none, none, none⟩,
   ⟨"age".data, 2, .number, false, true, none, none, none⟩,
   ⟨"tags".data, 3, .array, false, false, none, none, some .string⟩,
   ⟨"role".data, 4, .enum, false, false, some ["admin".data, "user".data],
     none, none⟩]

/-- An attempt map where openai fails with a ParseError, anthropic fails
with a ProviderError, and google succeeds (used by the C9 witness). -/
def mixedAttempt : Provider → Except OrchError Nat
  | .openai => .error (.parse ⟨"x".data, some 0, 1, 2⟩)
  | .anthropic => .error (.provider .anthropic none)
  | .google => .ok 7

/-! ## Theorems -/

theorem glue_ne_nil (c : Char) (l : List (List Char)) : glue c l ≠ [] := by
  cases l <;> simp [glue]

theorem glue_consSeg (c : Char) (s : List Char) (X : List (List Char)) :
    glue c (consSeg s X) = consSeg (c :: s) X := by
  cases X <;> rfl

theorem splitFuel_nil (delimiter escapeChar : List Char) (n : Nat) :
    splitFuel delimiter escapeChar n [] = [[]] := by
  cases n <;> rfl

theorem splitFuel_congr (delimiter escapeChar : List Char) :
    ∀ n m s, s.length ≤ n → s.length ≤ m →
      splitFuel delimiter escapeChar n s = splitFuel delimiter escapeChar m s := by
  intro n
  induction n using Nat.strongRecOn with
  | _ n ih =>
    intro m s hn hm
    match s, hn, hm with
    | [], _, _ => rw [splitFuel_nil, splitFuel_nil]
    | c :: rest, hn, hm =>
      match n, m, hn, hm with
      | n + 1, m + 1, hn, hm =>
        cases rest with
        | nil =>
          simp only [splitFuel]
          split_ifs with h
          · have hd := List.length_pos.mpr h.1
            rw [ih n (by omega) m _ (by simp; omega) (by simp; omega)]
          · rfl
        | cons d rest2 =>
          simp only [List.length_cons] at hn hm
          simp only [splitFuel]
          split_ifs with h1 h2
          · rw [ih n (by omega) m rest2 (by omega) (by omega)]
          · have hd := List.length_pos.mpr h2.1
            rw [ih n (by omega) m _ (by simp; omega) (by simp; omega)]
          · rw [ih n (by omega) m (d :: rest2) (by simp; omega) (by simp; omega)]

theorem splitFuel_ne_nil (delimiter escapeChar : List Char) (n : Nat) (s : List Char) :
    splitFuel delimiter escapeChar n s ≠ [] := by
  match n, s with
  | _, [] => rw [splitFuel_nil]; simp
  | 0, c :: rest => simp [splitFuel]
  | n + 1, [c] =>
    simp only [splitFuel]
    split_ifs <;> first | apply glue_ne_nil | simp
  | n + 1, c :: d :: rest2 =>
    simp only [splitFuel]
    split_ifs <;> first | apply glue_ne_nil | simp

theorem splitWithEscape_ne_nil (s delimiter escapeChar : List Char) :
    splitWithEscape s delimiter escapeChar ≠ [] :=
  splitFuel_ne_nil delimiter escapeChar s.length s

theorem splitWithEscape_nil (delimiter escapeChar : List Char) :
    splitWithEscape [] delimiter escapeChar = [[]] := rfl

/-- Unfolding rule: an escape character followed by a delimiter or escape
character is folded into the current segment. -/
theorem splitWithEscape_escPair (delimiter escapeChar : List Char) (c d : Char)
    (rest : List Char)
    (h : charEqStr c escapeChar ∧ (charEqStr d delimiter ∨ charEqStr d escapeChar)) :
    splitWithEscape (c :: d :: rest) delimiter escapeChar =
      glue d (splitWithEscape rest delimiter escapeChar) := by
  show splitFuel _ _ (rest.length + 2) _ = _
  simp only [splitFuel, if_pos h]
  rw [splitFuel_congr delimiter escapeChar (rest.length + 1) rest.length rest
    (by omega) (le_refl _)]
  rfl

/-- Unfolding rule: a single-character delimiter that is not the escape
character terminates the current segment. -/
theorem splitWithEscape_delim (D : Char) (escapeChar : List Char) (rest : List Char)
    (hD : ¬ charEqStr D escapeChar) :
    splitWithEscape (D :: rest) [D] escapeChar =
      [] :: splitWithEscape rest [D] escapeChar := by
  cases rest with
  | nil =>
    show splitFuel _ _ 1 _ = _
    simp [splitFuel, listStartsWith, splitWithEscape]
  | cons d rest2 =>
    show splitFuel _ _ (rest2.length + 2) _ = _
    have h1 : ¬ (charEqStr D escapeChar ∧
        (charEqStr d [D] ∨ charEqStr d escapeChar)) := by
      intro h; exact hD h.1
    simp only [splitFuel, if_neg h1]
    rw [if_pos ⟨by simp, by simp [listStartsWith]⟩]
    rfl

/-- Unfolding rule: an ordinary character is folded into the current
segment. -/
theorem splitWithEscape_plain (c D : Char) (escapeChar : List Char) (rest : List Char)
    (hcD : ¬ charEqStr c [D]) (hcE : ¬ charEqStr c escapeChar) :
    splitWithEscape (c :: rest) [D] escapeChar =
      glue c (splitWithEscape rest [D] escapeChar) := by
  have hDc : ¬ (D = c) := fun h => hcD (by simp [charEqStr, h])
  cases rest with
  | nil =>
    show splitFuel _ _ 1 _ = _
    simp only [splitFuel]
    rw [if_neg (by simp [listStartsWith, hDc])]
    rfl
  | cons d rest2 =>
    show splitFuel _ _ (rest2.length + 2) _ = _
    have h1 : ¬ (charEqStr c escapeChar ∧
        (charEqStr d [D] ∨ charEqStr d escapeChar)) := by
      intro h; exact hcE h.1
    simp only [splitFuel, if_neg h1]
    rw [if_neg (by simp [listStartsWith, hDc])]
    rw [splitFuel_congr [D] escapeChar (rest2.length + 1) (rest2.length + 1)
      (d :: rest2) (by simp) (by simp)]
    rfl

/-- Scanning an escaped block prepends it to the first segment produced by
the rest of the input (single-character delimiter and escape). -/
theorem splitWithEscape_escape_append (D E : Char) (s t : List Char) :
    splitWithEscape (escape s [D] [E] ++ t) [D] [E] =
      consSeg s (splitWithEscape t [D] [E]) := by
  induction s with
  | nil =>
    simp only [escape, List.nil_append]
    cases hX : splitWithEscape t [D] [E] with
    | nil => exact absurd hX (splitWithEscape_ne_nil t [D] [E])
    | cons x xs => simp [consSeg]
  | cons c s ih =>
    by_cases hc : charEqStr c [D] ∨ charEqStr c [E]
    · simp only [escape, if_pos hc, List.append_assoc, List.singleton_append,
        List.cons_append, List.nil_append]
      rw [splitWithEscape_escPair [D] [E] E c _ ⟨rfl, hc⟩, ih, glue_consSeg]
    · push_neg at hc
      simp only [escape, if_neg (not_or.mpr hc), List.singleton_append,
        List.cons_append, List.nil_append]
      rw [splitWithEscape_plain c D [E] _ hc.1 hc.2, ih, glue_consSeg]


/-- C5: coercing the empty-string segment returns the `Absent` sentinel
(`undefined`) for every field kind; no kind-specific parsing runs. -/
theorem claim_C5 (jsonParse : List Char → Option JsValue) (type : FieldType)
    (config : CoercionConfig) :
    coerceValue jsonParse [] type config = .undef := rfl

/-- C6: the claim says `+infinity` and `-infinity` are recognised
case-insensitively.  The source compares `+Infinity` and `-Infinity`
exact-case (only bare `nan` and `infinity` are lowercased first), so the
token `+INFINITY`, which is case-insensitively `+infinity`, falls through
to the `Number(...)` fallback and coerces to NaN instead of Infinity. -/
theorem claim_C6_counterexample :
    jsLower (jsTrim "+INFINITY".data) = "+infinity".data ∧
    coerceNumber "+INFINITY".data = .nan ∧
    coerceValue (fun _ => none) "+INFINITY".data .number ⟨";".data⟩ =
      .number .nan :=
  ⟨by decide, by decide, rfl⟩

/-- C6 (amended): after trimming, `nan` and `infinity` are recognised
case-insensitively, while `+Infinity` and `-Infinity` are recognised
exact-case only; every other token falls back to `Number(...)` on the
trimmed segment, a total function that yields the NaN sentinel on failure
rather than raising. -/
theorem claim_C6 (value : List Char) :
    (jsLower (jsTrim value) = "nan".data → coerceNumber value = .nan) ∧
    (jsLower (jsTrim value) = "infinity".data → coerceNumber value = .inf) ∧
    (jsTrim value = "+Infinity".data → coerceNumber value = .inf) ∧
    (jsTrim value = "-Infinity".data → coerceNumber value = .negInf) ∧
    (jsLower (jsTrim value) ≠ "nan".data → jsLower (jsTrim value) ≠ "infinity".data →
      jsTrim value ≠ "+Infinity".data → jsTrim value ≠ "-Infinity".data →
      coerceNumber value = jsStrToNum (jsTrim value)) := by
  refine ⟨fun h => ?_, fun h => ?_, fun h => ?_, fun h => ?_,
    fun h1 h2 h3 h4 => ?_⟩
  · simp [coerceNumber, h]
  · simp only [coerceNumber]
    rw [if_neg (by rw [h]; decide), if_pos (Or.inl h)]
  · simp only [coerceNumber]
    rw [if_neg (by rw [h]; decide), if_pos (Or.inr h)]
  · simp only [coerceNumber]
    rw [if_neg (by rw [h]; decide), if_neg (by rw [h]; decide), if_pos h]
  · simp only [coerceNumber]
    rw [if_neg h1, if_neg (not_or.mpr ⟨h2, h3⟩), if_neg h4]

/-- C6 witness: the amended theorem applied to a trimmed exact-case
`+Infinity` token. -/
theorem claim_C6_instance : coerceNumber " +Infinity ".data = .inf :=
  (claim_C6 " +Infinity ".data).2.2.1 (by decide)

/-- C7: the claim says every non-empty value outside the recognised
true/false token sets coerces to true.  A segment of one space is
non-empty, but it trims to the empty string, whose JavaScript truthiness
is false, so it coerces to false. -/
theorem claim_C7_counterexample :
    (" ".data ≠ ([] : List Char)) ∧ jsTrim " ".data = [] ∧
    coerceValue (fun _ => none) " ".data .boolean ⟨";".data⟩ =
      .boolean false :=
  ⟨by decide, by decide, rfl⟩

/-- C7 (amended): a non-empty boolean segment is matched, after trimming
and lowercasing, against the true set and the false set; any other value
coerces via the truthiness of its trimmed form, so it yields true exactly
when the trimmed segment is nonempty (whitespace-only segments yield
false). -/
theorem claim_C7 (jsonParse : List Char → Option JsValue)
    (config : CoercionConfig) (value : List Char) (hv : value ≠ []) :
    (jsLower (jsTrim value) = "true".data ∨ jsLower (jsTrim value) = "1".data ∨
        jsLower (jsTrim value) = "yes".data →
      coerceValue jsonParse value .boolean config = .boolean true) ∧
    (jsLower (jsTrim value) = "false".data ∨ jsLower (jsTrim value) = "0".data ∨
        jsLower (jsTrim value) = "no".data →
      coerceValue jsonParse value .boolean config = .boolean false) ∧
    (¬ (jsLower (jsTrim value) = "true".data ∨ jsLower (jsTrim value) = "1".data ∨
        jsLower (jsTrim value) = "yes".data) →
     ¬ (jsLower (jsTrim value) = "false".data ∨ jsLower (jsTrim value) = "0".data ∨
        jsLower (jsTrim value) = "no".data) →
      coerceValue jsonParse value .boolean config =
        .boolean (!(jsTrim value).isEmpty)) := by
  have hval : coerceValue jsonParse value .boolean config =
      .boolean (coerceBoolean value) := by
    simp [coerceValue, hv]
  refine ⟨fun h => ?_, fun h => ?_, fun h1 h2 => ?_⟩
  · rw [hval]; simp [coerceBoolean, h]
  · rw [hval]
    rcases h with h | h | h <;>
      (simp only [coerceBoolean]; rw [if_neg (by rw [h]; decide), if_pos (by tauto)])
  · rw [hval]
    simp only [coerceBoolean]
    rw [if_neg h1, if_neg h2]
    have hmap : (jsLower (jsTrim value)).isEmpty = (jsTrim value).isEmpty := by
      cases jsTrim value <;> simp [jsLower]
    rw [hmap]

/-- C7 witness: the amended theorem at a recognised true token. -/
theorem claim_C7_instance :
    coerceValue (fun _ => none) " YES ".data .boolean ⟨";".data⟩ =
      .boolean true :=
  (claim_C7 (fun _ => none) ⟨";".data⟩ " YES ".data (by decide)).1 (by decide)

end PositionalZod

namespace PositionalZod

/-- Round trip of the escape codec for a single-character escape string:
`unescape(escape(s)) = s` for every string and every delimiter string. -/
theorem unescape_escape (s delimiter : List Char) (E : Char) :
    unescape (escape s delimiter [E]) delimiter [E] = s := by
  induction s with
  | nil => rfl
  | cons c rest ih =>
    by_cases hc : charEqStr c delimiter ∨ charEqStr c [E]
    · simp only [escape, if_pos hc, List.cons_append, List.singleton_append,
        List.nil_append]
      simp only [unescape]
      rw [if_pos ⟨rfl, hc⟩, ih]
    · have hcE : ¬ charEqStr c [E] := fun h => hc (Or.inr h)
      simp only [escape, if_neg hc, List.singleton_append]
      cases hE : escape rest delimiter [E] with
      | nil =>
        have hrest : rest = [] := by rw [← ih, hE]; rfl
        subst hrest; rfl
      | cons d tail =>
        simp only [unescape]
        rw [if_neg (fun h => hcE h.1), ← hE, ih]

/-- Splitting the delimiter-joined, escaped segments recovers the segments,
for a nonempty segment list and distinct single-character delimiter and
escape characters. -/
theorem split_joinEscaped (D E : Char) (hDE : D ≠ E) :
    ∀ segments : List (List Char), segments ≠ [] →
      splitWithEscape (joinEscaped segments [D] [E]) [D] [E] = segments
  | [], h => absurd rfl h
  | [s], _ => by
    show splitWithEscape (escape s [D] [E]) [D] [E] = [s]
    rw [← List.append_nil (escape s [D] [E]), splitWithEscape_escape_append D E,
      splitWithEscape_nil]
    simp [consSeg]
  | s :: s2 :: rest, _ => by
    show splitWithEscape
      (escape s [D] [E] ++ [D] ++ joinEscaped (s2 :: rest) [D] [E]) [D] [E] = _
    have hD : ¬ charEqStr D [E] := by simp [charEqStr, hDE]
    rw [List.append_assoc, splitWithEscape_escape_append D E,
      List.singleton_append, splitWithEscape_delim D [E] _ hD,
      split_joinEscaped D E hDE (s2 :: rest) (by simp)]
    simp [consSeg]

/-- C3: the claim states `unescape(escape(s, delim, esc), delim, esc) = s`
for every delimiter/escape-character pair.  It fails when the escape
"character" is a multi-character string: the source's `escape` inserts the
whole escape string before a character equal to the delimiter, while
`unescape` compares single characters against the escape string and so can
never consume it.  Concretely, with delimiter `"|"` and escape string
`"XY"`, the string `"|"` escapes to `"XY|"`, which unescapes to itself. -/
theorem claim_C3_counterexample :
    escape "|".data "|".data "XY".data = "XY|".data ∧
    unescape (escape "|".data "|".data "XY".data) "|".data "XY".data ≠ "|".data := by
  constructor
  · decide
  · decide

/-- C3 (amended): for every string `s`, every delimiter string, and every
single-character escape character, `unescape(escape(s, delim, esc), delim,
esc) = s`: the escape codec round-trip law. -/
theorem claim_C3 (s delimiter : List Char) (E : Char) :
    unescape (escape s delimiter [E]) delimiter [E] = s :=
  unescape_escape s delimiter E

/-- C2: the claim quantifies over every list of segments and every
delimiter/escape configuration.  Three concrete failures: a multi-character
delimiter is never escaped (the source compares single characters against
the whole delimiter string), so a segment containing it splits apart; the
empty segment list joins to the empty string, whose split is one empty
segment, not zero; and with delimiter equal to the escape character the
escape pairs regroup across segment boundaries. -/
theorem claim_C2_counterexample :
    splitWithEscape (joinEscaped ["a||b".data] "||".data "\\".data)
        "||".data "\\".data ≠ ["a||b".data] ∧
    splitWithEscape (joinEscaped [] "|".data "\\".data) "|".data "\\".data ≠
        ([] : List (List Char)) ∧
    splitWithEscape (joinEscaped ["".data, "|".data] "|".data "|".data)
        "|".data "|".data ≠ ["".data, "|".data] := by
  refine ⟨by decide, by decide, by decide⟩

/-- C2 (amended): for every nonempty list of segments and every
single-character delimiter and single-character escape character that are
distinct, escaping each segment, joining with the delimiter, and splitting
with `splitWithEscape` yields exactly the original segments. -/
theorem claim_C2 (D E : Char) (hDE : D ≠ E) (segments : List (List Char))
    (hne : segments ≠ []) :
    splitWithEscape (joinEscaped segments [D] [E]) [D] [E] = segments :=
  split_joinEscaped D E hDE segments hne

/-- C2 witness: the amended round trip at a concrete input containing the
delimiter, the escape character and an empty segment. -/
theorem claim_C2_instance :
    ('|' ≠ '\\') ∧ (["a|b".data, "c\\d".data, []] ≠ ([] : List (List Char))) ∧
    splitWithEscape (joinEscaped ["a|b".data, "c\\d".data, []] ['|'] ['\\'])
        ['|'] ['\\'] = ["a|b".data, "c\\d".data, []] :=
  ⟨by decide, by decide, claim_C2 '|' '\\' (by decide) _ (by decide)⟩

/-- C4: a row whose escape-aware split yields a segment count different
from the Position List length makes `parseRow` fail with a ParseError
carrying the row index, the Position List length as the expected column
count, and the segment count actually found. -/
theorem claim_C4 (jsonParse : List Char → Option JsValue) (row : List Char)
    (positions : List PositionInfo) (config : ParserConfig) (rowIndex : Nat)
    (h : (splitWithEscape row config.delimiter config.escapeChar).length ≠
      positions.length) :
    parseRow jsonParse row positions config rowIndex =
      .error ⟨row, some rowIndex, positions.length,
        (splitWithEscape row config.delimiter config.escapeChar).length⟩ := by
  simp only [parseRow]
  rw [if_pos h]

/-- C4 witness: a two-segment row against a one-column Position List. -/
theorem claim_C4_instance :
    parseRow jsonParseNone "a|b".data [nameEntry] defaultParserConfig 3 =
      .error ⟨"a|b".data, some 3, 1, 2⟩ := by
  rw [claim_C4 jsonParseNone "a|b".data [nameEntry] defaultParserConfig 3
    (by decide)]
  rfl

/-- C10: the `null` substitution of the row parser applies only to
entries whose nullable flag is true, uniformly in the declared kind.  For
every Position Entry and every raw segment: a non-nullable entry's value
is always the normal type coercion (`coerceEntryValue`), even when the
segment is case-insensitively the token `null`; in particular a
non-nullable string entry with such a segment decodes to the literal raw
string.  A nullable entry gets the null sentinel exactly when the segment
is case-insensitively `null`, and normal coercion otherwise.  The final
conjunct ties this to the row parser: for any position list whose column
count matches, `parseRow` stores `coercePosition` of each entry's raw
segment at its path. -/
theorem claim_C10 (jsonParse : List Char → Option JsValue)
    (config : ParserConfig) (position : PositionInfo) (rawValue : List Char) :
    (position.nullable = false →
      coercePosition jsonParse config position rawValue =
        coerceEntryValue jsonParse config position rawValue) ∧
    (jsLower rawValue = "null".data → position.type = .string →
      position.nullable = false →
      coercePosition jsonParse config position rawValue = .str rawValue) ∧
    (position.nullable = true → jsLower rawValue = "null".data →
      coercePosition jsonParse config position rawValue = .null) ∧
    (jsLower rawValue ≠ "null".data →
      coercePosition jsonParse config position rawValue =
        coerceEntryValue jsonParse config position rawValue) ∧
    (∀ (row : List Char) (positions : List PositionInfo) (rowIndex : Nat),
      (splitWithEscape row config.delimiter config.escapeChar).length =
        positions.length →
      parseRow jsonParse row positions config rowIndex =
        .ok (positions.foldl (fun result p =>
          setNestedValue result p.path
            (coercePosition jsonParse config p
              ((splitWithEscape row config.delimiter config.escapeChar).getD
                p.position []))) [])) := by
  refine ⟨fun h => ?_, fun h1 h2 h3 => ?_, fun h1 h2 => ?_, fun h => ?_,
    fun row positions rowIndex h => ?_⟩
  · simp [coercePosition, coerceEntryValue, h]
  · have hne : rawValue ≠ [] := by
      intro he; rw [he] at h1; exact absurd h1 (by decide)
    obtain ⟨path, pos, ty, opt, nul, ev, lv, ait⟩ := position
    simp only at h2 h3
    subst h2; subst h3
    simp [coercePosition, coerceValue, hne]
  · simp [coercePosition, h1, h2]
  · simp [coercePosition, coerceEntryValue, h]
  · simp only [parseRow]
    rw [if_neg (not_not_intro h)]

/-- C10 witness: the raw segment `NULL` goes through normal coercion for
a non-nullable string entry (yielding the literal string), the segment
`null` is substituted for a nullable number entry (a non-string kind),
and a one-column parse stores the literal string in the record. -/
theorem claim_C10_instance :
    (coercePosition jsonParseNone defaultParserConfig
        ⟨"v".data, 0, .string, false, false, none, none, none⟩ "NULL".data =
      .str "NULL".data) ∧
    (coercePosition jsonParseNone defaultParserConfig
        ⟨"n".data, 0, .number, false, true, none, none, none⟩ "null".data =
      .null) ∧
    (parseRow jsonParseNone "NULL".data
        [⟨"v".data, 0, .string, false, false, none, none, none⟩]
        defaultParserConfig 0 = .ok [("v".data, .str "NULL".data)]) := by
  refine ⟨?_, ?_, ?_⟩
  · exact (claim_C10 jsonParseNone defaultParserConfig _ "NULL".data).2.1
      (by decide) rfl rfl
  · exact (claim_C10 jsonParseNone defaultParserConfig _ "null".data).2.2.1
      rfl (by decide)
  · rw [(claim_C10 jsonParseNone defaultParserConfig
      ⟨"v".data, 0, .string, false, false, none, none, none⟩
      "NULL".data).2.2.2.2 "NULL".data _ 0 (by decide)]
    rfl

/-- C8: the claim says extra lines in Single (object) mode never cause an
error.  But the source parses every line before selecting the first, so a
malformed extra line still raises ParseError: with one string column, the
input `"a\nb|c"` has two non-empty lines, its first line alone decodes
fine, yet the decode fails with a ParseError for row 1. -/
theorem claim_C8_counterexample :
    1 < (cleanAndSplitRows "a\nb|c".data).length ∧
    parseRow jsonParseNone "a".data [nameEntry] defaultParserConfig 0 =
      .ok [("name".data, .str "a".data)] ∧
    parsePositionalOutput jsonParseNone acceptAllValidator "a\nb|c".data
        [nameEntry] defaultParserConfig .object =
      .error (.parse ⟨"b|c".data, some 1, 1, 2⟩) :=
  ⟨by decide, rfl, rfl⟩

/-- C8 (amended): in object mode, when the input has more than one
non-empty line and every line parses with the correct column count, the
decode succeeds with the first line record (validated), and the warnings
are exactly the single warning "Expected single object but got N rows.
Using first row." with N the row count. -/
theorem claim_C8 (jsonParse : List Char → Option JsValue)
    (validate : JsRecord → Except (List (List Char)) JsRecord)
    (rawOutput : List Char) (positions : List PositionInfo)
    (config : ParserConfig) (p0 p1 : JsRecord) (ps : List JsRecord)
    (v : JsRecord)
    (hparse : (cleanAndSplitRows rawOutput).enum.mapM
        (fun ir => parseRow jsonParse ir.2 positions config ir.1) =
      .ok (p0 :: p1 :: ps))
    (hval : validate p0 = .ok v) :
    parsePositionalOutput jsonParse validate rawOutput positions config
        .object =
      .ok ⟨.one v, some [singleModeWarning (p0 :: p1 :: ps).length]⟩ := by
  have hne : ¬ (cleanAndSplitRows rawOutput).length = 0 := by
    intro h0
    rw [List.length_eq_zero] at h0
    rw [h0] at hparse
    simp [List.enum, List.mapM, List.mapM.loop] at hparse
    exact absurd hparse (by simp [pure, Except.pure])
  simp only [parsePositionalOutput]
  rw [if_neg hne, hparse]
  simp only [List.headD_cons]
  rw [if_pos (by simp), hval]
  rw [if_pos (by simp)]

/-- C8 witness: two well-formed lines in object mode produce the first
record and exactly the two-row warning. -/
theorem claim_C8_instance :
    parsePositionalOutput jsonParseNone acceptAllValidator "a\nb".data
        [nameEntry] defaultParserConfig .object =
      .ok ⟨.one [("name".data, .str "a".data)],
        some [singleModeWarning 2]⟩ := by
  have h := claim_C8 jsonParseNone acceptAllValidator "a\nb".data [nameEntry]
    defaultParserConfig [("name".data, .str "a".data)]
    [("name".data, .str "b".data)] [] [("name".data, .str "a".data)]
    (by rfl) (by rfl)
  exact h


theorem range1_append (s m n : Nat) :
    List.range' s m ++ List.range' (s + m) n = List.range' s (m + n) := by
  rw [Nat.add_comm m n]
  have h := List.range'_append s m n 1
  rw [one_mul] at h
  exact h

/-- One-entry outcome of `analyze`: a leaf node consumes exactly the next
position index. -/
theorem analyze_leaf_aux {e : PositionInfo} {pos pos2 : Nat}
    {l : List PositionInfo}
    (h : (Except.ok ([e], pos + 1) :
      Except SchemaErr (List PositionInfo × Nat)) = Except.ok (l, pos2))
    (he : e.position = pos) :
    pos2 = pos + l.length ∧
      l.map PositionInfo.position = List.range' pos l.length := by
  simp only [Except.ok.injEq, Prod.mk.injEq] at h
  obtain ⟨h1, hp⟩ := h
  subst h1; subst hp
  exact ⟨by simp, by simp [List.range', he]⟩

mutual
/-- The state invariant of the analyzer: a successful `analyze` call
starting at position `pos` contributes entries whose position indices are
exactly `pos, pos+1, ...` in order, and returns the next free index. -/
theorem analyze_positions (s : ZodType) (path : List Char) (o nl : Bool)
    (pos : Nat) (l : List PositionInfo) (pos2 : Nat)
    (h : analyze s path o nl pos = .ok (l, pos2)) :
    pos2 = pos + l.length ∧
      l.map PositionInfo.position = List.range' pos l.length := by
  cases s
  case zstring => exact analyze_leaf_aux h rfl
  case znumber => exact analyze_leaf_aux h rfl
  case zboolean => exact analyze_leaf_aux h rfl
  case zdate => exact analyze_leaf_aux h rfl
  case zenum values => exact analyze_leaf_aux h rfl
  case znativeEnum values => exact analyze_leaf_aux h rfl
  case zliteral value => exact analyze_leaf_aux h rfl
  case zoptional inner => exact analyze_positions inner path true nl pos l pos2 h
  case znullable inner => exact analyze_positions inner path o true pos l pos2 h
  case zdefault inner => exact analyze_positions inner path o nl pos l pos2 h
  case zcatch inner => exact analyze_positions inner path o nl pos l pos2 h
  case zbranded inner => exact analyze_positions inner path o nl pos l pos2 h
  case zpipeline inner => exact analyze_positions inner path o nl pos l pos2 h
  case zreadonly inner => exact analyze_positions inner path o nl pos l pos2 h
  case zarray element => exact analyze_leaf_aux h rfl
  case zobject shape => exact analyzeShape_positions shape path o nl pos l pos2 h
  case zunion => exact analyze_leaf_aux h rfl
  case zdiscriminatedUnion => exact analyze_leaf_aux h rfl
  case zeffects inner => exact analyze_positions inner path o nl pos l pos2 h
  case zeffectsOpaque => exact analyze_leaf_aux h rfl
  case zany => exact analyze_leaf_aux h rfl
  case zunknown => exact analyze_leaf_aux h rfl
  case zrecord => exact Except.noConfusion h
  case zmap => exact Except.noConfusion h
  case zset => exact Except.noConfusion h
  case zfunction => exact Except.noConfusion h
  case zlazy => exact Except.noConfusion h
  case zpromise => exact Except.noConfusion h
  case zother typeName => exact analyze_leaf_aux h rfl

/-- The same invariant for the field loop of an object shape. -/
theorem analyzeShape_positions (shape : ZodShape) (path : List Char)
    (o nl : Bool) (pos : Nat) (l : List PositionInfo) (pos2 : Nat)
    (h : analyzeShape shape path o nl pos = .ok (l, pos2)) :
    pos2 = pos + l.length ∧
      l.map PositionInfo.position = List.range' pos l.length := by
  cases shape with
  | nil =>
    simp only [analyzeShape, Except.ok.injEq, Prod.mk.injEq] at h
    obtain ⟨h1, hp⟩ := h
    subst h1; subst hp
    simp [List.range']
  | cons name field rest =>
    cases h1 : analyze field (if path = [] then name else path ++ ".".data ++ name)
        o nl pos with
    | error e =>
      simp only [analyzeShape, h1] at h
      exact Except.noConfusion h
    | ok res =>
      obtain ⟨l1, pos1⟩ := res
      cases h2 : analyzeShape rest path o nl pos1 with
      | error e =>
        simp only [analyzeShape, h1, h2] at h
        exact Except.noConfusion h
      | ok res2 =>
        obtain ⟨l2, pos2b⟩ := res2
        simp only [analyzeShape, h1, h2, Except.ok.injEq, Prod.mk.injEq] at h
        obtain ⟨hl, hp⟩ := h
        subst hl; subst hp
        obtain ⟨ha1, ha2⟩ := analyze_positions field _ o nl pos l1 pos1 h1
        obtain ⟨hb1, hb2⟩ := analyzeShape_positions rest path o nl pos1 l2 pos2b h2
        subst ha1; subst hb1
        constructor
        · simp [List.length_append]; omega
        · rw [List.map_append, ha2, hb2, List.length_append]
          exact range1_append pos l1.length l2.length
end

/-- C1: for every schema the analyzer accepts, the returned Position List
has position indices exactly `0 .. N-1` in order (`N` the list length):
contiguous, no gaps or repeats, assigned in depth-first traversal order,
with Object nodes and Optional/Nullable wrappers never consuming an
index (they contribute no entry of their own, as `analyze` shows). -/
theorem claim_C1 (schema : ZodType) (positions : List PositionInfo)
    (h : analyzeSchema schema = .ok positions) :
    positions.map PositionInfo.position = List.range positions.length := by
  cases hs : getShapeOf schema with
  | none =>
    simp only [analyzeSchema, hs] at h
    exact Except.noConfusion h
  | some shape =>
    cases h2 : analyzeShape shape [] false false 0 with
    | error e =>
      simp only [analyzeSchema, hs, h2] at h
      exact Except.noConfusion h
    | ok res =>
      obtain ⟨l, pos2⟩ := res
      simp only [analyzeSchema, hs, h2, Except.ok.injEq] at h
      subst h
      rw [List.range_eq_range']
      exact (analyzeShape_positions shape [] false false 0 l pos2 h2).2

/-- C1 witness: the invariant at a schema with nesting, wrappers, an
array and an enum. -/
theorem claim_C1_instance :
    analyzeSchema demoSchema = .ok demoPositions ∧
    demoPositions.map PositionInfo.position =
      List.range demoPositions.length :=
  ⟨rfl, claim_C1 demoSchema demoPositions rfl⟩

/-- C9: the fallback loop of `complete` moves on to the next provider
exactly when the failed attempt threw a ProviderError; any other error
(in particular every SchemaError, ParseError and ValidationError, whose
`isProviderError` test is false) is rethrown unmodified at once, with no
further provider attempted.  Stated over the loop on an arbitrary
provider order, so it covers the primary attempt and every fallback
position; the final conjunct restates the policy for the whole
`complete` call. -/
theorem claim_C9 {R : Type} (attempt : Provider → Except OrchError R)
    (configured : Provider → Bool) (p : Provider) (rest : List Provider)
    (last : Option OrchError) (e : OrchError)
    (hc : configured p = true) (ha : attempt p = .error e) :
    (e.isProviderError = false →
      completeAttempts attempt configured (p :: rest) last = .error e) ∧
    (e.isProviderError = true →
      completeAttempts attempt configured (p :: rest) last =
        completeAttempts attempt configured rest (some e)) ∧
    (∀ se, (OrchError.schema se).isProviderError = false) ∧
    (∀ pe, (OrchError.parse pe).isProviderError = false) ∧
    (∀ ve, (OrchError.validation ve).isProviderError = false) ∧
    (e.isProviderError = false → ∀ fallbackProviders,
      complete attempt configured p fallbackProviders = .error e) := by
  refine ⟨fun hep => ?_, fun hep => ?_, fun _ => rfl, fun _ => rfl,
    fun _ => rfl, fun hep fallbackProviders => ?_⟩
  · simp [completeAttempts, hc, ha, hep]
  · simp [completeAttempts, hc, ha, hep]
  · simp [complete, completeAttempts, hc, ha, hep]

/-- C9 witness: with every provider configured, a ParseError from the
first provider aborts the whole call even though a later provider would
succeed, while a ProviderError from the first provider falls through to
the next provider. -/
theorem claim_C9_instance :
    complete mixedAttempt (fun _ => true) .openai [.anthropic, .google] =
      .error (.parse ⟨"x".data, some 0, 1, 2⟩) ∧
    completeAttempts mixedAttempt (fun _ => true)
        [Provider.anthropic, Provider.google] none = .ok 7 := by
  constructor
  · exact (claim_C9 mixedAttempt (fun _ => true) .openai [] none _ rfl
      rfl).2.2.2.2.2 rfl [.anthropic, .google]
  · rw [(claim_C9 mixedAttempt (fun _ => true) .anthropic [.google] none _ rfl
      rfl).2.1 rfl]
    rfl

end PositionalZod
